import Mathlib

/-!
Verification of the Control Identifier Reconciliation Engine of
generate_level_sheets.py.

Strings are modelled as lists of characters.  The Python string methods
strip() and upper() are modelled at ASCII granularity: strip removes the
ASCII whitespace characters (space, tab, newline, vertical tab, form feed,
carriage return) from both ends, and upper maps the basic latin lowercase
letters to uppercase via Char.toUpper.  The regular expressions of the
source are modelled by explicit, executable parsers proved to follow the
anchored greedy matching of the Python re module on the relevant patterns.
-/

namespace StigCCI

/-- ASCII whitespace, the characters removed by the Python str.strip method. -/
def isPySpace (c : Char) : Bool :=
  decide (c.toNat = 32) || (decide (9 ≤ c.toNat) && decide (c.toNat ≤ 13))

/-- Character class of the regex fragment [A-Z]. -/
def isUpperAlpha (c : Char) : Bool :=
  decide (65 ≤ c.toNat) && decide (c.toNat ≤ 90)

/-- Character class of the regex fragment for a decimal digit. -/
def isDigitChar (c : Char) : Bool :=
  decide (48 ≤ c.toNat) && decide (c.toNat ≤ 57)

/-- Model of the Python str.strip method (ASCII whitespace, both ends). -/
def pyStrip (s : List Char) : List Char :=
  ((s.dropWhile isPySpace).reverse.dropWhile isPySpace).reverse

/-- Model of the Python str.upper method (basic latin letters). -/
def pyUpper (s : List Char) : List Char :=
  s.map Char.toUpper

/-- Abbreviation turning a string literal into the list-of-characters model. -/
def strL (s : String) : List Char := s.toList

/-- The decimal digit character for a value below ten. -/
def digitChar : Nat → Char
  | 0 => '0'
  | 1 => '1'
  | 2 => '2'
  | 3 => '3'
  | 4 => '4'
  | 5 => '5'
  | 6 => '6'
  | 7 => '7'
  | 8 => '8'
  | 9 => '9'
  | _ => '*'

/-- Numeric value of a decimal digit character. -/
def digitVal (c : Char) : Nat := c.toNat - 48

/-- Fuel-driven decimal printer; the fuel only bounds the recursion depth
and is irrelevant once it is at least the printed number. -/
def natReprGo (fuel : Nat) (n : Nat) : List Char :=
  match fuel with
  | 0 => [digitChar n]
  | f + 1 =>
    if n < 10 then [digitChar n]
    else natReprGo f (n / 10) ++ [digitChar (n % 10)]

/-- Decimal digit string of a natural number, most significant digit first.
Models the Python str conversion of a nonnegative int. -/
def natRepr (n : Nat) : List Char := natReprGo n n

/-- Model of the Python format specifier 02d: decimal digits, left padded
with zeros to a minimum width of two. -/
def format02 (n : Nat) : List Char :=
  if n < 10 then '0' :: natRepr n else natRepr n

/-- Value of a decimal digit string, as computed by the Python int function
on a string of digits (leading zeros allowed). -/
def digitsToNat (ds : List Char) : Nat :=
  ds.foldl (fun a c => a * 10 + digitVal c) 0

/-- Anchored match of the normalization pattern of normalize_control_id,
regex ([A-Z]\x7b2\x7d)-(a digit run)(optionally a parenthesized digit run),
anchored at both ends.  On success returns the two family letters, the
control digit run and the optional enhancement digit run. -/
def matchNormPattern (s : List Char) :
    Option (Char × Char × List Char × Option (List Char)) :=
  match s with
  | a :: b :: c :: rest =>
    if isUpperAlpha a && isUpperAlpha b && c = '-' then
      let ds := rest.takeWhile isDigitChar
      let r2 := rest.dropWhile isDigitChar
      if ds.isEmpty then none
      else
        match r2 with
        | [] => some (a, b, ds, none)
        | c2 :: r3 =>
          if c2 = '(' then
            let es := r3.takeWhile isDigitChar
            let r4 := r3.dropWhile isDigitChar
            if es.isEmpty then none
            else if r4 = [')'] then some (a, b, ds, some es) else none
          else none
    else none
  | _ => none

/-- Canonical output built in the match branch of normalize_control_id. -/
def buildCanonical (a b : Char) (n : Nat) (e : Option Nat) : List Char :=
  match e with
  | none => a :: b :: '-' :: format02 n
  | some m => a :: b :: '-' :: (format02 n ++ ('(' :: (format02 m ++ [')'])))

/-- Model of normalize_control_id from generate_level_sheets.py. -/
def normalize_control_id (s : List Char) : List Char :=
  if s = [] then []
  else
    let t := pyUpper (pyStrip s)
    match matchNormPattern t with
    | some (a, b, ds, none) => buildCanonical a b (digitsToNat ds) none
    | some (a, b, ds, some es) =>
        buildCanonical a b (digitsToNat ds) (some (digitsToNat es))
    | none => t

/-- Anchored-at-start match of the regex fragment for digits followed by an
optional parenthesized digit run, anchored at the end, used by the
validation pattern. -/
def digitsEnhSuffix (t : List Char) : Bool :=
  let ds := t.takeWhile isDigitChar
  let r2 := t.dropWhile isDigitChar
  if ds.isEmpty then false
  else
    match r2 with
    | [] => true
    | c :: r3 =>
      if c = '(' then
        let es := r3.takeWhile isDigitChar
        let r4 := r3.dropWhile isDigitChar
        !es.isEmpty && decide (r4 = [')'])
      else false

/-- Model of validate_control_id from generate_level_sheets.py: the input is
empty-checked, stripped, upper-cased and matched against the anchored regex
of 2 to 3 uppercase letters, a hyphen, digits and an optional parenthesized
digit run. -/
def validate_control_id (s : List Char) : Bool :=
  if s = [] || pyStrip s = [] then false
  else
    let t := pyUpper (pyStrip s)
    let r := (t.takeWhile isUpperAlpha).length
    (decide (r = 2) || decide (r = 3)) &&
      decide ((t.drop r).head? = some '-') && digitsEnhSuffix (t.drop (r + 1))

/-- The family string returned for unclassifiable identifiers. -/
def unknownFamily : List Char := strL "Unknown"

/-- Model of get_control_family from generate_level_sheets.py: the leading
run of 2 to 3 uppercase letters before a hyphen of the stripped, upper-cased
input, and the string Unknown when there is no such prefix run. -/
def get_control_family (s : List Char) : List Char :=
  if s = [] || pyStrip s = [] then unknownFamily
  else
    let t := pyUpper (pyStrip s)
    let run := t.takeWhile isUpperAlpha
    let r := run.length
    if (decide (r = 2) || decide (r = 3)) &&
        decide ((t.drop r).head? = some '-') then run
    else unknownFamily

/-- One raw catalog record, the fields read by load_controls_data. -/
structure RawControl where
  controlIdentifier : List Char
  name : List Char
  text : List Char
  discussion : List Char
  relatedControls : List Char
deriving DecidableEq

/-- The catalog entry stored per canonical identifier. -/
structure CatalogEntry where
  name : List Char
  text : List Char
  discussion : List Char
  relatedControls : List Char
deriving DecidableEq

/-- The entry built from one raw catalog record. -/
def entryOfControl (r : RawControl) : CatalogEntry :=
  ⟨r.name, r.text, r.discussion, r.relatedControls⟩

/-- One raw requirement-mapping record, the fields read by load_cci_data. -/
structure RawCCI where
  control : List Char
  cciNumber : List Char
  description : List Char
  index : List Char
deriving DecidableEq

/-- The requirement record stored per canonical identifier. -/
structure CCIEntry where
  cciNumber : List Char
  description : List Char
  index : List Char
deriving DecidableEq

/-- The requirement record built from one raw record. -/
def cciOfRecord (r : RawCCI) : CCIEntry := ⟨r.cciNumber, r.description, r.index⟩

/-- Association-list model of a Python dict keyed by strings: lookup. -/
def lookupAssoc {V : Type} (m : List (List Char × V)) (k : List Char) :
    Option V :=
  match m with
  | [] => none
  | (k2, v) :: rest => if k2 = k then some v else lookupAssoc rest k

/-- Association-list model of a Python dict keyed by strings: insertion,
overwriting the value of an existing key. -/
def insertAssoc {V : Type} (m : List (List Char × V)) (k : List Char) (v : V) :
    List (List Char × V) :=
  match m with
  | [] => [(k, v)]
  | (k2, v2) :: rest =>
    if k2 = k then (k2, v) :: rest else (k2, v2) :: insertAssoc rest k v

/-- Model of a defaultdict-of-list update: append one value to the list at a
key, creating the key with a singleton list when absent. -/
def appendAssoc {V : Type} (m : List (List Char × List V)) (k : List Char)
    (v : V) : List (List Char × List V) :=
  match m with
  | [] => [(k, [v])]
  | (k2, vs) :: rest =>
    if k2 = k then (k2, vs ++ [v]) :: rest else (k2, vs) :: appendAssoc rest k v

/-- The loop body of load_controls_data: normalize the identifier of the
record, skip it when the normalized identifier is empty, otherwise insert
the fields, overwriting the value of an existing key. -/
def controlsStep (acc : List (List Char × CatalogEntry)) (r : RawControl) :
    List (List Char × CatalogEntry) :=
  if normalize_control_id r.controlIdentifier = [] then acc
  else insertAssoc acc (normalize_control_id r.controlIdentifier)
    (entryOfControl r)

/-- Model of the lookup-table construction of load_controls_data: normalize
the identifier of each record, skip records whose normalized identifier is
empty, insert the fields with last-write-wins on duplicate keys. -/
def load_controls_data (records : List RawControl) :
    List (List Char × CatalogEntry) :=
  records.foldl controlsStep []

/-- The loop body of load_cci_data: normalize the Control field, skip the
record when the normalized identifier is empty, otherwise append the
requirement record to the list of its identifier. -/
def cciStep (acc : List (List Char × List CCIEntry)) (r : RawCCI) :
    List (List Char × List CCIEntry) :=
  if normalize_control_id r.control = [] then acc
  else appendAssoc acc (normalize_control_id r.control) (cciOfRecord r)

/-- Model of the lookup-table construction of load_cci_data: normalize the
Control field of each record, skip records whose normalized identifier is
empty, append the requirement record to the list of its identifier. -/
def load_cci_data (records : List RawCCI) :
    List (List Char × List CCIEntry) :=
  records.foldl cciStep []

/-- Requirement lookup with the empty-list default used by the callers. -/
def lookupCCI (m : List (List Char × List CCIEntry)) (k : List Char) :
    List CCIEntry :=
  (lookupAssoc m k).getD []

/-- Model of load_comparison_data restricted to the withdrawn set: the raw
strings of the comparison dataset are collected without normalization. -/
def load_comparison_data_withdrawn (raw : List (List Char)) :
    List (List Char) := raw

/-- The loop body of the reconciliation in main: normalize the raw
identifier and route it to the legacy list when the canonical form is a
member of the withdrawn set, to the current list otherwise. -/
def reconcileStep (withdrawn : List (List Char))
    (acc : List (List Char) × List (List Char)) (ctrl : List Char) :
    List (List Char) × List (List Char) :=
  if withdrawn.contains (normalize_control_id ctrl) then
    (acc.1, acc.2 ++ [normalize_control_id ctrl])
  else (acc.1 ++ [normalize_control_id ctrl], acc.2)

/-- Model of the per-level reconciliation loop of main. -/
def reconcile_level (controls : List (List Char))
    (withdrawn : List (List Char)) : List (List Char) × List (List Char) :=
  controls.foldl (reconcileStep withdrawn) ([], [])

/-- Counter update of a defaultdict-of-int: add a value at a key, starting
from zero when the key is absent. -/
def bumpAssoc (m : List (List Char × Nat)) (k : List Char) (d : Nat) :
    List (List Char × Nat) :=
  match m with
  | [] => [(k, d)]
  | (k2, n) :: rest =>
    if k2 = k then (k2, n + d) :: rest else (k2, n) :: bumpAssoc rest k d

/-- The statistics record accumulated by create_level_sheet. -/
structure LevelStats where
  total_controls : Nat
  total_ccis : Nat
  families : List (List Char × Nat)
  family_ccis : List (List Char × Nat)
  unknown_controls : List (List Char)
  not_in_reference : List (List Char)
deriving DecidableEq

/-- The empty statistics accumulator. -/
def initStats : LevelStats := ⟨0, 0, [], [], [], []⟩

/-- The loop body of the statistics side of create_level_sheet: normalize
the identifier, skip it when the normalized form is empty, then count it,
add its requirement count, bump its family counters, and record it when its
family is Unknown or when it is absent from the catalog lookup. -/
def statsStep (controls_lookup : List (List Char × CatalogEntry))
    (cci_lookup : List (List Char × List CCIEntry))
    (st : LevelStats) (cid : List Char) : LevelStats :=
  if normalize_control_id cid = [] then st
  else
    { total_controls := st.total_controls + 1
      total_ccis := st.total_ccis
        + (lookupCCI cci_lookup (normalize_control_id cid)).length
      families := bumpAssoc st.families
        (get_control_family (normalize_control_id cid)) 1
      family_ccis := bumpAssoc st.family_ccis
        (get_control_family (normalize_control_id cid))
        (lookupCCI cci_lookup (normalize_control_id cid)).length
      unknown_controls :=
        if get_control_family (normalize_control_id cid) = unknownFamily then
          st.unknown_controls ++ [normalize_control_id cid]
        else st.unknown_controls
      not_in_reference :=
        if (lookupAssoc controls_lookup (normalize_control_id cid)).isNone then
          st.not_in_reference ++ [normalize_control_id cid]
        else st.not_in_reference }

/-- The statistics record built by create_level_sheet over the identifiers
of one level. -/
def create_level_sheet_stats (controls : List (List Char))
    (controls_lookup : List (List Char × CatalogEntry))
    (cci_lookup : List (List Char × List CCIEntry)) : LevelStats :=
  controls.foldl (statsStep controls_lookup cci_lookup) initStats

/-- Round half to even of a rational, the rounding mode of the Python round
function (float arithmetic modelled as exact rational arithmetic). -/
def roundHalfEven (x : ℚ) : ℤ :=
  let f := ⌊x⌋
  let r := x - f
  if r < 1 / 2 then f
  else if 1 / 2 < r then f + 1
  else if Even f then f else f + 1

/-- Model of the Python round(x, 2). -/
def pyRound2 (x : ℚ) : ℚ := (roundHalfEven (x * 100) : ℚ) / 100

/-- The average requirements per control computed in create_summary_sheet:
round(total_ccis / total_controls, 2) when total_controls is positive, and
0 otherwise. -/
def summary_avg_ccis (total_controls total_ccis : Nat) : ℚ :=
  if 0 < total_controls then
    pyRound2 ((total_ccis : ℚ) / (total_controls : ℚ))
  else 0

/-- Written after the wording of the spec, for comparison with the code: the
bit-exact canonical format, two uppercase letters, a hyphen, exactly two
digits, and an optional parenthesized pair of exactly two digits. -/
def canonicalFormatSpec (s : List Char) : Bool :=
  match s with
  | a :: b :: c :: d1 :: d2 :: rest =>
    isUpperAlpha a && isUpperAlpha b && decide (c = '-') &&
      isDigitChar d1 && isDigitChar d2 &&
      (match rest with
       | [] => true
       | [p, e1, e2, q] =>
         decide (p = '(') && isDigitChar e1 && isDigitChar e2 && decide (q = ')')
       | _ => false)
  | _ => false

/-- The widened canonical format actually guaranteed by the code: two
uppercase letters, a hyphen, two or more digits, and an optional
parenthesized run of two or more digits. -/
def canonicalFormatAtLeast2 (s : List Char) : Bool :=
  match s with
  | a :: b :: c :: rest =>
    isUpperAlpha a && isUpperAlpha b && decide (c = '-') &&
      decide (2 ≤ (rest.takeWhile isDigitChar).length) &&
      (match rest.dropWhile isDigitChar with
       | [] => true
       | c2 :: r3 =>
         decide (c2 = '(') && decide (2 ≤ (r3.takeWhile isDigitChar).length) &&
           decide (r3.dropWhile isDigitChar = [')']))
  | _ => false

/-- Written after the wording of the spec, for comparison with the code: a
string of 2 to 3 uppercase letters, a hyphen, one or more digits, and an
optional parenthesized run of one or more digits. -/
def validPatternSpec (t : List Char) : Prop :=
  ∃ fam ds opt,
    (fam.length = 2 ∨ fam.length = 3) ∧ (∀ c ∈ fam, isUpperAlpha c = true) ∧
    ds ≠ [] ∧ (∀ c ∈ ds, isDigitChar c = true) ∧
    (opt = [] ∨ ∃ es, es ≠ [] ∧ (∀ c ∈ es, isDigitChar c = true) ∧
      opt = '(' :: (es ++ [')'])) ∧
    t = fam ++ ('-' :: (ds ++ opt))

/-! Character-level facts. -/

theorem toNat_ofNat_of_lt {n : Nat} (h : n < 55296) : (Char.ofNat n).toNat = n := by
  have hv : n.isValidChar := Or.inl h
  rw [Char.ofNat, dif_pos hv]
  rfl

theorem toUpper_toNat_of_lower {c : Char}
    (h : 97 ≤ c.toNat ∧ c.toNat ≤ 122) :
    (Char.toUpper c).toNat = c.toNat - 32 := by
  rw [Char.toUpper]
  simp only [ge_iff_le, if_pos h]
  exact toNat_ofNat_of_lt (by omega)

theorem toUpper_eq_self_of_not_lower {c : Char}
    (h : ¬(97 ≤ c.toNat ∧ c.toNat ≤ 122)) : Char.toUpper c = c := by
  rw [Char.toUpper]
  simp only [ge_iff_le, if_neg h]

theorem toUpper_idem (c : Char) :
    Char.toUpper (Char.toUpper c) = Char.toUpper c := by
  by_cases h : 97 ≤ c.toNat ∧ c.toNat ≤ 122
  · have h2 : (Char.toUpper c).toNat = c.toNat - 32 := toUpper_toNat_of_lower h
    exact toUpper_eq_self_of_not_lower (by omega)
  · rw [toUpper_eq_self_of_not_lower h, toUpper_eq_self_of_not_lower h]

theorem isPySpace_iff {c : Char} :
    isPySpace c = true ↔ (c.toNat = 32 ∨ (9 ≤ c.toNat ∧ c.toNat ≤ 13)) := by
  simp [isPySpace]

theorem isUpperAlpha_iff {c : Char} :
    isUpperAlpha c = true ↔ (65 ≤ c.toNat ∧ c.toNat ≤ 90) := by
  simp [isUpperAlpha]

theorem isDigitChar_iff {c : Char} :
    isDigitChar c = true ↔ (48 ≤ c.toNat ∧ c.toNat ≤ 57) := by
  simp [isDigitChar]

theorem isPySpace_toUpper (c : Char) :
    isPySpace (Char.toUpper c) = isPySpace c := by
  by_cases h : 97 ≤ c.toNat ∧ c.toNat ≤ 122
  · have h2 : (Char.toUpper c).toNat = c.toNat - 32 := toUpper_toNat_of_lower h
    rw [Bool.eq_iff_iff, isPySpace_iff, isPySpace_iff]
    omega
  · rw [toUpper_eq_self_of_not_lower h]

theorem toUpper_eq_self_of_small {c : Char} (h : c.toNat < 97) :
    Char.toUpper c = c :=
  toUpper_eq_self_of_not_lower (by omega)

/-! Strip and upper-case facts. -/

theorem dropWhile_dropWhile {α : Type} (p : α → Bool) (l : List α) :
    (l.dropWhile p).dropWhile p = l.dropWhile p := by
  induction l with
  | nil => rfl
  | cons c l ih =>
    by_cases h : p c = true
    · rw [List.dropWhile_cons_of_pos h, ih]
    · rw [List.dropWhile_cons_of_neg h, List.dropWhile_cons_of_neg h]

theorem dropWhile_eq_self_of_head {α : Type} {p : α → Bool} {l : List α}
    (h : ∀ c, l.head? = some c → p c = false) : l.dropWhile p = l := by
  cases l with
  | nil => rfl
  | cons c l =>
    have hc : p c = false := h c rfl
    rw [List.dropWhile_cons_of_neg (by simp [hc])]

theorem head?_dropWhile_eq_some {α : Type} {p : α → Bool} {l : List α}
    {c : α} (h : (l.dropWhile p).head? = some c) : p c = false := by
  have := List.head?_dropWhile_not p l
  rw [h] at this
  exact this

theorem pyStrip_idem (l : List Char) : pyStrip (pyStrip l) = pyStrip l := by
  set p := isPySpace with hp
  set m := l.dropWhile p with hm
  set w := m.reverse.dropWhile p with hw
  have hps : pyStrip l = w.reverse := rfl
  cases hwe : w with
  | nil =>
    rw [hps, hwe]
    rfl
  | cons c0 w0 =>
    have hwne : w ≠ [] := by rw [hwe]; simp
    have hlast : w.getLast? = m.reverse.getLast? := by
      obtain ⟨t, ht⟩ := List.dropWhile_suffix (l := m.reverse) p
      rw [← hw] at ht
      rw [← ht, List.getLast?_append]
      have : w.getLast? = some (w.getLast hwne) := List.getLast?_eq_getLast w hwne
      rw [this]
      rfl
    have hml : m.reverse.getLast? = m.head? := List.getLast?_reverse m
    have hmhead : ∀ c, m.head? = some c → p c = false := by
      intro c hc
      rw [hm] at hc
      exact head?_dropWhile_eq_some hc
    have hwlast : ∀ c, w.getLast? = some c → p c = false := by
      intro c hc
      apply hmhead
      rw [← hml, ← hlast]
      exact hc
    have hrev : ∀ c, w.reverse.head? = some c → p c = false := by
      intro c hc
      apply hwlast
      rw [← List.head?_reverse]
      exact hc
    have h1 : w.reverse.dropWhile p = w.reverse := dropWhile_eq_self_of_head hrev
    show ((w.reverse.dropWhile p).reverse.dropWhile p).reverse = w.reverse
    rw [h1, List.reverse_reverse, hw, dropWhile_dropWhile]

theorem pyStrip_pyUpper_comm (l : List Char) :
    pyStrip (pyUpper l) = pyUpper (pyStrip l) := by
  have hdw : ∀ u : List Char,
      (u.map Char.toUpper).dropWhile isPySpace
        = (u.dropWhile isPySpace).map Char.toUpper := by
    intro u
    rw [List.dropWhile_map]
    have : (isPySpace ∘ Char.toUpper) = isPySpace := by
      funext c
      exact isPySpace_toUpper c
    rw [this]
  show (((pyUpper l).dropWhile isPySpace).reverse.dropWhile isPySpace).reverse
      = pyUpper (((l.dropWhile isPySpace).reverse.dropWhile isPySpace).reverse)
  rw [show pyUpper l = l.map Char.toUpper from rfl, hdw, ← List.map_reverse, hdw,
    ← List.map_reverse]
  rfl

theorem pyUpper_idem (l : List Char) : pyUpper (pyUpper l) = pyUpper l := by
  show (l.map Char.toUpper).map Char.toUpper = l.map Char.toUpper
  rw [List.map_map]
  apply List.map_congr_left
  intro c _
  exact toUpper_idem c

theorem pyStrip_pyUpper_pyStrip (l : List Char) :
    pyStrip (pyUpper (pyStrip l)) = pyUpper (pyStrip l) := by
  rw [pyStrip_pyUpper_comm, pyStrip_idem]

theorem pyUpper_pyStrip_invariant (l : List Char) :
    pyUpper (pyStrip (pyUpper (pyStrip l))) = pyUpper (pyStrip l) := by
  rw [pyStrip_pyUpper_pyStrip, pyUpper_idem]

/-! Decimal printing and parsing facts. -/

theorem digitChar_toNat {d : Nat} (h : d < 10) : (digitChar d).toNat = 48 + d := by
  interval_cases d <;> decide

theorem isDigitChar_digitChar {d : Nat} (h : d < 10) :
    isDigitChar (digitChar d) = true := by
  interval_cases d <;> decide

theorem digitVal_digitChar {d : Nat} (h : d < 10) : digitVal (digitChar d) = d := by
  interval_cases d <;> decide

theorem digitsToNat_nil : digitsToNat [] = 0 := rfl

theorem foldl_digits (a : Nat) (ds : List Char) :
    ds.foldl (fun x c => x * 10 + digitVal c) a
      = a * 10 ^ ds.length + digitsToNat ds := by
  induction ds generalizing a with
  | nil => simp [digitsToNat]
  | cons c ds ih =>
    rw [List.foldl_cons, ih]
    have h2 : digitsToNat (c :: ds) = digitVal c * 10 ^ ds.length + digitsToNat ds := by
      rw [show digitsToNat (c :: ds)
            = ds.foldl (fun x c => x * 10 + digitVal c) (0 * 10 + digitVal c) from rfl,
        ih]
      ring_nf
    rw [h2, List.length_cons]
    ring

theorem digitsToNat_cons (c : Char) (ds : List Char) :
    digitsToNat (c :: ds) = digitVal c * 10 ^ ds.length + digitsToNat ds := by
  rw [show digitsToNat (c :: ds)
        = ds.foldl (fun x c => x * 10 + digitVal c) (0 * 10 + digitVal c) from rfl,
    foldl_digits]
  ring_nf

theorem digitsToNat_concat (ds : List Char) (c : Char) :
    digitsToNat (ds ++ [c]) = digitsToNat ds * 10 + digitVal c := by
  rw [digitsToNat, List.foldl_append]
  rfl

theorem natReprGo_props :
    ∀ fuel n, n ≤ fuel ∨ n < 10 →
      digitsToNat (natReprGo fuel n) = n ∧ natReprGo fuel n ≠ [] ∧
        ∀ c ∈ natReprGo fuel n, isDigitChar c = true := by
  intro fuel
  induction fuel with
  | zero =>
    intro n h
    have h10 : n < 10 := by omega
    refine ⟨?_, by simp [natReprGo], ?_⟩
    · rw [show natReprGo 0 n = [digitChar n] from rfl, digitsToNat_cons]
      simp [digitVal_digitChar h10, digitsToNat_nil]
    · intro c hc
      rw [show natReprGo 0 n = [digitChar n] from rfl] at hc
      rw [List.mem_singleton] at hc
      rw [hc]
      exact isDigitChar_digitChar h10
  | succ f ih =>
    intro n h
    by_cases h10 : n < 10
    · rw [show natReprGo (f + 1) n = if n < 10 then [digitChar n]
            else natReprGo f (n / 10) ++ [digitChar (n % 10)] from rfl, if_pos h10]
      refine ⟨?_, by simp, ?_⟩
      · rw [digitsToNat_cons]
        simp [digitVal_digitChar h10, digitsToNat_nil]
      · intro c hc
        rw [List.mem_singleton] at hc
        rw [hc]
        exact isDigitChar_digitChar h10
    · rw [show natReprGo (f + 1) n = if n < 10 then [digitChar n]
            else natReprGo f (n / 10) ++ [digitChar (n % 10)] from rfl, if_neg h10]
      have hdiv : n / 10 ≤ f ∨ n / 10 < 10 := by omega
      obtain ⟨ihv, ihne, ihd⟩ := ih (n / 10) hdiv
      refine ⟨?_, by simp, ?_⟩
      · rw [digitsToNat_concat, ihv, digitVal_digitChar (by omega)]
        omega
      · intro c hc
        rw [List.mem_append, List.mem_singleton] at hc
        rcases hc with hc | hc
        · exact ihd c hc
        · rw [hc]
          exact isDigitChar_digitChar (by omega)

theorem digitsToNat_natRepr (n : Nat) : digitsToNat (natRepr n) = n :=
  (natReprGo_props n n (Or.inl le_rfl)).1

theorem natRepr_ne_nil (n : Nat) : natRepr n ≠ [] :=
  (natReprGo_props n n (Or.inl le_rfl)).2.1

theorem natRepr_digits (n : Nat) : ∀ c ∈ natRepr n, isDigitChar c = true :=
  (natReprGo_props n n (Or.inl le_rfl)).2.2

theorem digitsToNat_format02 (n : Nat) : digitsToNat (format02 n) = n := by
  by_cases h : n < 10
  · rw [format02, if_pos h, digitsToNat_cons, digitsToNat_natRepr]
    have h0 : digitVal '0' = 0 := by decide
    simp [h0]
  · rw [format02, if_neg h]
    exact digitsToNat_natRepr n

theorem format02_ne_nil (n : Nat) : format02 n ≠ [] := by
  by_cases h : n < 10
  · rw [format02, if_pos h]
    simp
  · rw [format02, if_neg h]
    exact natRepr_ne_nil n

theorem format02_digits (n : Nat) : ∀ c ∈ format02 n, isDigitChar c = true := by
  by_cases h : n < 10
  · rw [format02, if_pos h]
    intro c hc
    rw [List.mem_cons] at hc
    rcases hc with hc | hc
    · rw [hc]; decide
    · exact natRepr_digits n c hc
  · rw [format02, if_neg h]
    exact natRepr_digits n

theorem format02_length (n : Nat) : 2 ≤ (format02 n).length := by
  by_cases h : n < 10
  · rw [format02, if_pos h]
    have : natRepr n ≠ [] := natRepr_ne_nil n
    have : 1 ≤ (natRepr n).length := by
      cases hn : natRepr n with
      | nil => exact absurd hn this
      | cons a l => simp
    simp only [List.length_cons]
    omega
  · rw [format02, if_neg h]
    have hn : n = (n - 1) + 1 := by omega
    rw [natRepr, hn, show natReprGo (n - 1 + 1) (n - 1 + 1)
          = if (n - 1 + 1) < 10 then [digitChar (n - 1 + 1)]
            else natReprGo (n - 1) ((n - 1 + 1) / 10) ++ [digitChar ((n - 1 + 1) % 10)]
        from rfl, if_neg (by omega)]
    have hne := (natReprGo_props (n - 1) ((n - 1 + 1) / 10) (by omega)).2.1
    have : 1 ≤ (natReprGo (n - 1) ((n - 1 + 1) / 10)).length := by
      cases hg : natReprGo (n - 1) ((n - 1 + 1) / 10) with
      | nil => exact absurd hg hne
      | cons a l => simp
    rw [List.length_append]
    simp only [List.length_cons, List.length_nil]
    omega

/-! Facts about the anchored pattern matcher of the normalizer. -/

theorem takeWhile_eq_self_of_all {α : Type} {p : α → Bool} {l : List α}
    (h : ∀ c ∈ l, p c = true) : l.takeWhile p = l := by
  have := @List.takeWhile_append_of_pos _ p l [] h
  simpa using this

theorem dropWhile_eq_nil_of_all {α : Type} {p : α → Bool} {l : List α}
    (h : ∀ c ∈ l, p c = true) : l.dropWhile p = [] := by
  have := @List.dropWhile_append_of_pos _ p l [] h
  simpa using this

theorem matchNormPattern_nil : matchNormPattern [] = none := rfl

theorem matchNormPattern_build_none {a b : Char} {ds : List Char}
    (ha : isUpperAlpha a = true) (hb : isUpperAlpha b = true)
    (hds : ds ≠ []) (hd : ∀ c ∈ ds, isDigitChar c = true) :
    matchNormPattern (a :: b :: '-' :: ds) = some (a, b, ds, none) := by
  rw [matchNormPattern]
  rw [if_pos (by simp [ha, hb])]
  have ht : ds.takeWhile isDigitChar = ds := takeWhile_eq_self_of_all hd
  have hdw : ds.dropWhile isDigitChar = [] := dropWhile_eq_nil_of_all hd
  simp only [ht, hdw, List.isEmpty_eq_true, if_neg hds]

theorem matchNormPattern_build_some {a b : Char} {ds es : List Char}
    (ha : isUpperAlpha a = true) (hb : isUpperAlpha b = true)
    (hds : ds ≠ []) (hd : ∀ c ∈ ds, isDigitChar c = true)
    (hes : es ≠ []) (he : ∀ c ∈ es, isDigitChar c = true) :
    matchNormPattern (a :: b :: '-' :: (ds ++ '(' :: (es ++ [')'])))
      = some (a, b, ds, some es) := by
  rw [matchNormPattern]
  rw [if_pos (by simp [ha, hb])]
  have hparen : isDigitChar '(' = false := by decide
  have ht : (ds ++ '(' :: (es ++ [')'])).takeWhile isDigitChar = ds := by
    rw [List.takeWhile_append_of_pos hd,
      List.takeWhile_cons_of_neg (by simp [hparen]), List.append_nil]
  have hdw : (ds ++ '(' :: (es ++ [')'])).dropWhile isDigitChar
      = '(' :: (es ++ [')']) := by
    rw [List.dropWhile_append_of_pos hd,
      List.dropWhile_cons_of_neg (by simp [hparen])]
  have hclose : isDigitChar ')' = false := by decide
  have ht2 : (es ++ [')']).takeWhile isDigitChar = es := by
    rw [List.takeWhile_append_of_pos he,
      List.takeWhile_cons_of_neg (by simp [hclose]), List.append_nil]
  have hdw2 : (es ++ [')']).dropWhile isDigitChar = [')'] := by
    rw [List.dropWhile_append_of_pos he,
      List.dropWhile_cons_of_neg (by simp [hclose])]
  simp only [ht, hdw, List.isEmpty_eq_true, if_neg hds]
  simp only [ht2, hdw2, List.isEmpty_eq_true, if_neg hes, if_pos rfl]
  simp

theorem matchNormPattern_some_inv {s : List Char} {a b : Char}
    {ds : List Char} {e : Option (List Char)}
    (h : matchNormPattern s = some (a, b, ds, e)) :
    isUpperAlpha a = true ∧ isUpperAlpha b = true ∧ ds ≠ [] ∧
      (∀ c ∈ ds, isDigitChar c = true) ∧
      ∀ es, e = some es → es ≠ [] ∧ ∀ c ∈ es, isDigitChar c = true := by
  match s with
  | [] => exact absurd h (by simp [matchNormPattern])
  | [a0] => exact absurd h (by simp [matchNormPattern])
  | [a0, b0] => exact absurd h (by simp [matchNormPattern])
  | a0 :: b0 :: c0 :: rest =>
    rw [matchNormPattern] at h
    split at h
    case isFalse => exact absurd h (by simp)
    case isTrue hcond =>
      simp only [Bool.and_eq_true, decide_eq_true_eq] at hcond
      obtain ⟨⟨ha0, hb0⟩, hc0⟩ := hcond
      simp only [] at h
      split at h
      case isTrue => exact absurd h (by simp)
      case isFalse hne =>
        have hdsall : ∀ c ∈ rest.takeWhile isDigitChar, isDigitChar c = true :=
          fun c hc => List.mem_takeWhile_imp hc
        split at h
        case h_1 =>
          simp only [Option.some.injEq, Prod.mk.injEq] at h
          obtain ⟨rfl, rfl, rfl, rfl⟩ := h
          refine ⟨ha0, hb0, ?_, hdsall, ?_⟩
          · simpa [List.isEmpty_iff] using hne
          · intro es hes
            exact absurd hes (by simp)
        case h_2 c2 r3 =>
          split at h
          case isFalse => exact absurd h (by simp)
          case isTrue hc2 =>
            split at h
            case isTrue => exact absurd h (by simp)
            case isFalse hene =>
              split at h
              case isFalse => exact absurd h (by simp)
              case isTrue hr4 =>
                simp only [Option.some.injEq, Prod.mk.injEq] at h
                obtain ⟨rfl, rfl, rfl, rfl⟩ := h
                refine ⟨ha0, hb0, ?_, hdsall, ?_⟩
                · simpa [List.isEmpty_iff] using hne
                · intro es hes
                  rw [Option.some_inj] at hes
                  subst hes
                  constructor
                  · simpa [List.isEmpty_iff] using hene
                  · exact fun c hc => List.mem_takeWhile_imp hc

/-! Unfolding facts for the normalizer and its idempotence. -/

theorem pyStrip_nil : pyStrip [] = [] := rfl

theorem pyUpper_nil : pyUpper [] = [] := rfl

theorem normalize_nil : normalize_control_id [] = [] := rfl

theorem normalize_eq_of_match {s : List Char} {a b : Char} {ds : List Char}
    {e : Option (List Char)}
    (h : matchNormPattern (pyUpper (pyStrip s)) = some (a, b, ds, e)) :
    normalize_control_id s
      = buildCanonical a b (digitsToNat ds) (e.map digitsToNat) := by
  have hs : s ≠ [] := by
    rintro rfl
    rw [pyStrip_nil, pyUpper_nil, matchNormPattern_nil] at h
    exact absurd h (by simp)
  cases e with
  | none =>
    simp only [normalize_control_id, if_neg hs, h]
    rfl
  | some es =>
    simp only [normalize_control_id, if_neg hs, h]
    rfl

theorem normalize_eq_of_none {s : List Char}
    (h : matchNormPattern (pyUpper (pyStrip s)) = none) :
    normalize_control_id s = pyUpper (pyStrip s) := by
  by_cases hs : s = []
  · subst hs
    rfl
  · simp only [normalize_control_id, if_neg hs, h]

theorem buildCanonical_range {a b : Char} {n : Nat} {e : Option Nat}
    (ha : isUpperAlpha a = true) (hb : isUpperAlpha b = true) :
    ∀ c ∈ buildCanonical a b n e, 40 ≤ c.toNat ∧ c.toNat ≤ 90 := by
  have hdig : ∀ m : Nat, ∀ c ∈ format02 m, 40 ≤ c.toNat ∧ c.toNat ≤ 90 := by
    intro m c hc
    have := (isDigitChar_iff).mp (format02_digits m c hc)
    omega
  have hhyph : ('-' : Char).toNat = 45 := by decide
  have hop : ('(' : Char).toNat = 40 := by decide
  have hcl : (')' : Char).toNat = 41 := by decide
  have hav := isUpperAlpha_iff.mp ha
  have hbv := isUpperAlpha_iff.mp hb
  cases e with
  | none =>
    intro c hc
    simp only [buildCanonical, List.mem_cons] at hc
    rcases hc with rfl | rfl | rfl | hc
    · omega
    · omega
    · omega
    · exact hdig n c hc
  | some m =>
    intro c hc
    simp only [buildCanonical, List.mem_cons, List.mem_append,
      List.mem_singleton] at hc
    have hflat : c = a ∨ c = b ∨ c = '-' ∨ c ∈ format02 n ∨ c = '(' ∨
        c ∈ format02 m ∨ c = ')' := by tauto
    rcases hflat with rfl | rfl | rfl | hc2 | rfl | hc2 | rfl
    · omega
    · omega
    · omega
    · exact hdig n c hc2
    · omega
    · exact hdig m c hc2
    · omega

theorem pyStrip_eq_self_of_all {l : List Char}
    (h : ∀ c ∈ l, isPySpace c = false) : pyStrip l = l := by
  have h1 : l.dropWhile isPySpace = l := by
    apply dropWhile_eq_self_of_head
    intro c hc
    exact h c (List.mem_of_mem_head? hc)
  have h2 : l.reverse.dropWhile isPySpace = l.reverse := by
    apply dropWhile_eq_self_of_head
    intro c hc
    exact h c (List.mem_reverse.mp (List.mem_of_mem_head? hc))
  show ((l.dropWhile isPySpace).reverse.dropWhile isPySpace).reverse = l
  rw [h1, h2, List.reverse_reverse]

theorem pyUpper_eq_self_of_all {l : List Char}
    (h : ∀ c ∈ l, Char.toUpper c = c) : pyUpper l = l := by
  show l.map Char.toUpper = l
  rw [List.map_congr_left h]
  simp

theorem buildCanonical_invariant {a b : Char} {n : Nat} {e : Option Nat}
    (ha : isUpperAlpha a = true) (hb : isUpperAlpha b = true) :
    pyUpper (pyStrip (buildCanonical a b n e)) = buildCanonical a b n e := by
  have hr := buildCanonical_range (n := n) (e := e) ha hb
  rw [pyStrip_eq_self_of_all, pyUpper_eq_self_of_all]
  · intro c hc
    exact toUpper_eq_self_of_small (by have := hr c hc; omega)
  · intro c hc
    have := hr c hc
    rw [Bool.eq_false_iff]
    intro hsp
    have := isPySpace_iff.mp hsp
    omega

theorem matchNormPattern_buildCanonical {a b : Char} {n : Nat} {e : Option Nat}
    (ha : isUpperAlpha a = true) (hb : isUpperAlpha b = true) :
    matchNormPattern (buildCanonical a b n e)
      = some (a, b, format02 n, e.map format02) := by
  cases e with
  | none =>
    exact matchNormPattern_build_none ha hb (format02_ne_nil n) (format02_digits n)
  | some m =>
    exact matchNormPattern_build_some ha hb (format02_ne_nil n) (format02_digits n)
      (format02_ne_nil m) (format02_digits m)

theorem normalize_buildCanonical {a b : Char} {n : Nat} {e : Option Nat}
    (ha : isUpperAlpha a = true) (hb : isUpperAlpha b = true) :
    normalize_control_id (buildCanonical a b n e) = buildCanonical a b n e := by
  have hmatch : matchNormPattern (pyUpper (pyStrip (buildCanonical a b n e)))
      = some (a, b, format02 n, e.map format02) := by
    rw [buildCanonical_invariant ha hb]
    exact matchNormPattern_buildCanonical ha hb
  rw [normalize_eq_of_match hmatch]
  congr 1
  · exact digitsToNat_format02 n
  · rw [Option.map_map]
    cases e with
    | none => rfl
    | some m =>
      show some (digitsToNat (format02 m)) = some m
      rw [digitsToNat_format02]

theorem normalize_idem (s : List Char) :
    normalize_control_id (normalize_control_id s) = normalize_control_id s := by
  cases hm : matchNormPattern (pyUpper (pyStrip s)) with
  | none =>
    rw [normalize_eq_of_none hm]
    have ht := pyUpper_pyStrip_invariant s
    rw [normalize_eq_of_none (by rw [ht]; exact hm), ht]
  | some q =>
    obtain ⟨a, b, ds, e⟩ := q
    obtain ⟨ha, hb, _, _, _⟩ := matchNormPattern_some_inv hm
    rw [normalize_eq_of_match hm]
    exact normalize_buildCanonical ha hb

/-! Characterization of the validation pattern. -/

theorem drop_takeWhile_length {α : Type} (p : α → Bool) (l : List α) :
    l.drop (l.takeWhile p).length = l.dropWhile p := by
  induction l with
  | nil => rfl
  | cons c t ih =>
    by_cases h : p c = true
    · rw [List.takeWhile_cons_of_pos h, List.dropWhile_cons_of_pos h,
        List.length_cons, List.drop_succ_cons, ih]
    · rw [List.takeWhile_cons_of_neg (by simp [h]),
        List.dropWhile_cons_of_neg (by simp [h]), List.length_nil, List.drop_zero]

theorem digitsEnhSuffix_iff (u : List Char) :
    digitsEnhSuffix u = true ↔
      ∃ ds opt, ds ≠ [] ∧ (∀ c ∈ ds, isDigitChar c = true) ∧
        (opt = [] ∨ ∃ es, es ≠ [] ∧ (∀ c ∈ es, isDigitChar c = true) ∧
          opt = '(' :: (es ++ [')'])) ∧
        u = ds ++ opt := by
  constructor
  · intro h
    rw [digitsEnhSuffix] at h
    simp only [] at h
    split at h
    case isTrue => exact absurd h (by simp)
    case isFalse hne =>
      have hdsne : u.takeWhile isDigitChar ≠ [] := by
        simpa [List.isEmpty_iff] using hne
      have hdsall : ∀ c ∈ u.takeWhile isDigitChar, isDigitChar c = true :=
        fun c hc => List.mem_takeWhile_imp hc
      have hu : u = u.takeWhile isDigitChar ++ u.dropWhile isDigitChar :=
        (List.takeWhile_append_dropWhile _ _).symm
      split at h
      case h_1 heq =>
        exact ⟨u.takeWhile isDigitChar, [], hdsne, hdsall, Or.inl rfl, by
          rw [List.append_nil]
          rw [heq, List.append_nil] at hu
          exact hu⟩
      case h_2 c2 r3 heq =>
        split at h
        case isFalse => exact absurd h (by simp)
        case isTrue hc2 =>
          simp only [Bool.and_eq_true, Bool.not_eq_true', decide_eq_true_eq] at h
          obtain ⟨hesne, hr4⟩ := h
          have hesall : ∀ c ∈ r3.takeWhile isDigitChar, isDigitChar c = true :=
            fun c hc => List.mem_takeWhile_imp hc
          have hr3 : r3 = r3.takeWhile isDigitChar ++ [')'] := by
            conv_lhs => rw [← List.takeWhile_append_dropWhile isDigitChar r3]
            rw [hr4]
          refine ⟨u.takeWhile isDigitChar,
            '(' :: (r3.takeWhile isDigitChar ++ [')']), hdsne, hdsall,
            Or.inr ⟨r3.takeWhile isDigitChar, ?_, hesall, rfl⟩, ?_⟩
          · simpa [List.isEmpty_iff] using hesne
          · rw [← hr3, ← hc2, ← heq]
            exact hu
  · rintro ⟨ds, opt, hdsne, hdsall, hopt, rfl⟩
    rcases hopt with rfl | ⟨es, hesne, hesall, rfl⟩
    · rw [digitsEnhSuffix]
      simp only [List.append_nil, takeWhile_eq_self_of_all hdsall,
        dropWhile_eq_nil_of_all hdsall, List.isEmpty_eq_true, if_neg hdsne]
    · rw [digitsEnhSuffix]
      have hparen : isDigitChar '(' = false := by decide
      have hclose : isDigitChar ')' = false := by decide
      have ht : (ds ++ '(' :: (es ++ [')'])).takeWhile isDigitChar = ds := by
        rw [List.takeWhile_append_of_pos hdsall,
          List.takeWhile_cons_of_neg (by simp [hparen]), List.append_nil]
      have hdw : (ds ++ '(' :: (es ++ [')'])).dropWhile isDigitChar
          = '(' :: (es ++ [')']) := by
        rw [List.dropWhile_append_of_pos hdsall,
          List.dropWhile_cons_of_neg (by simp [hparen])]
      have ht2 : (es ++ [')']).takeWhile isDigitChar = es := by
        rw [List.takeWhile_append_of_pos hesall,
          List.takeWhile_cons_of_neg (by simp [hclose]), List.append_nil]
      have hdw2 : (es ++ [')']).dropWhile isDigitChar = [')'] := by
        rw [List.dropWhile_append_of_pos hesall,
          List.dropWhile_cons_of_neg (by simp [hclose])]
      simp only [ht, hdw, List.isEmpty_eq_true, if_neg hdsne, if_pos rfl,
        ht2, hdw2]
      simp [List.isEmpty_iff, hesne]

theorem validate_control_id_iff (s : List Char) :
    validate_control_id s = true ↔ validPatternSpec (pyUpper (pyStrip s)) := by
  constructor
  · intro h
    rw [validate_control_id] at h
    split at h
    case isTrue => exact absurd h (by simp)
    case isFalse hcond =>
      simp only [] at h
      simp only [Bool.and_eq_true, Bool.or_eq_true, decide_eq_true_eq] at h
      obtain ⟨⟨hr, hhd⟩, hsuf⟩ := h
      set t := pyUpper (pyStrip s) with hts
      set fam := t.takeWhile isUpperAlpha with hfam
      have hdrop : t.drop fam.length = t.dropWhile isUpperAlpha :=
        drop_takeWhile_length _ _
      have hfamall : ∀ c ∈ fam, isUpperAlpha c = true :=
        fun c hc => List.mem_takeWhile_imp hc
      have hsplit : t = fam ++ t.dropWhile isUpperAlpha :=
        (List.takeWhile_append_dropWhile _ _).symm
      rw [hdrop] at hhd
      cases hdw : t.dropWhile isUpperAlpha with
      | nil => rw [hdw] at hhd; exact absurd hhd (by simp)
      | cons c0 rest2 =>
        rw [hdw, List.head?_cons, Option.some_inj] at hhd
        subst hhd
        have hrest2 : t.drop (fam.length + 1) = rest2 := by
          rw [← List.drop_drop, hdrop, hdw, List.drop_one, List.tail_cons]
        rw [hrest2] at hsuf
        obtain ⟨ds, opt, hdsne, hdsall, hopt, hre⟩ :=
          (digitsEnhSuffix_iff rest2).mp hsuf
        exact ⟨fam, ds, opt, hr, hfamall, hdsne, hdsall, hopt, by
          rw [hsplit, hdw, hre]⟩
  · rintro ⟨fam, ds, opt, hr, hfamall, hdsne, hdsall, hopt, heq⟩
    have hfamne : fam ≠ [] := by
      intro hh
      rw [hh] at hr
      simp at hr
    have htne : pyUpper (pyStrip s) ≠ [] := by
      rw [heq]
      intro hh
      exact hfamne (List.append_eq_nil.mp hh).1
    have hstrip : pyStrip s ≠ [] := by
      intro hh
      rw [pyUpper] at htne
      rw [hh] at htne
      exact htne rfl
    have hsne : s ≠ [] := by
      intro hh
      rw [hh] at hstrip
      exact hstrip rfl
    rw [validate_control_id, if_neg (by simp [hsne, hstrip])]
    simp only []
    have hhyphen : isUpperAlpha '-' = false := by decide
    have htw : (pyUpper (pyStrip s)).takeWhile isUpperAlpha = fam := by
      rw [heq, List.takeWhile_append_of_pos hfamall,
        List.takeWhile_cons_of_neg (by simp [hhyphen]), List.append_nil]
    have hd1 : (pyUpper (pyStrip s)).drop fam.length = '-' :: (ds ++ opt) := by
      rw [heq, List.drop_left' rfl]
    have hd2 : (pyUpper (pyStrip s)).drop (fam.length + 1) = ds ++ opt := by
      rw [heq, List.append_cons, List.drop_left' (by simp)]
    rw [htw, hd1, hd2]
    simp only [Bool.and_eq_true, Bool.or_eq_true, decide_eq_true_eq]
    refine ⟨⟨hr, rfl⟩, ?_⟩
    exact (digitsEnhSuffix_iff _).mpr ⟨ds, opt, hdsne, hdsall, hopt, rfl⟩

/-! Association-list facts for the lookup builders. -/

theorem lookupAssoc_insertAssoc_self {V : Type} (m : List (List Char × V))
    (k : List Char) (v : V) : lookupAssoc (insertAssoc m k v) k = some v := by
  induction m with
  | nil => simp [insertAssoc, lookupAssoc]
  | cons p rest ih =>
    obtain ⟨k2, v2⟩ := p
    by_cases h : k2 = k
    · rw [insertAssoc, if_pos h, lookupAssoc, if_pos h]
    · rw [insertAssoc, if_neg h, lookupAssoc, if_neg h, ih]

theorem lookupAssoc_insertAssoc_other {V : Type} (m : List (List Char × V))
    (k k2 : List Char) (v : V) (hne : k ≠ k2) :
    lookupAssoc (insertAssoc m k v) k2 = lookupAssoc m k2 := by
  induction m with
  | nil => simp [insertAssoc, lookupAssoc, hne]
  | cons p rest ih =>
    obtain ⟨k3, v3⟩ := p
    by_cases h : k3 = k
    · rw [insertAssoc, if_pos h, lookupAssoc, if_neg (by rw [h]; exact hne),
        lookupAssoc, if_neg (by rw [h]; exact hne)]
    · rw [insertAssoc, if_neg h, lookupAssoc, lookupAssoc]
      by_cases h2 : k3 = k2
      · rw [if_pos h2, if_pos h2]
      · rw [if_neg h2, if_neg h2, ih]

theorem lookupCCI_appendAssoc_self (m : List (List Char × List CCIEntry))
    (k : List Char) (v : CCIEntry) :
    lookupCCI (appendAssoc m k v) k = lookupCCI m k ++ [v] := by
  induction m with
  | nil => simp [appendAssoc, lookupCCI, lookupAssoc]
  | cons p rest ih =>
    obtain ⟨k2, vs⟩ := p
    by_cases h : k2 = k
    · rw [appendAssoc, if_pos h]
      simp only [lookupCCI, lookupAssoc, if_pos h]
      rfl
    · rw [appendAssoc, if_neg h]
      simp only [lookupCCI, lookupAssoc, if_neg h]
      exact ih

theorem lookupCCI_appendAssoc_other (m : List (List Char × List CCIEntry))
    (k k2 : List Char) (v : CCIEntry) (hne : k ≠ k2) :
    lookupCCI (appendAssoc m k v) k2 = lookupCCI m k2 := by
  induction m with
  | nil => simp [appendAssoc, lookupCCI, lookupAssoc, hne]
  | cons p rest ih =>
    obtain ⟨k3, vs⟩ := p
    by_cases h : k3 = k
    · subst h
      rw [appendAssoc, if_pos rfl]
      simp only [lookupCCI, lookupAssoc, if_neg hne]
    · rw [appendAssoc, if_neg h]
      simp only [lookupCCI, lookupAssoc]
      by_cases h2 : k3 = k2
      · rw [if_pos h2, if_pos h2]
      · rw [if_neg h2, if_neg h2]
        exact ih

theorem controlsStep_skip (acc : List (List Char × CatalogEntry))
    (r : RawControl) (hz : normalize_control_id r.controlIdentifier = []) :
    controlsStep acc r = acc := by
  rw [controlsStep, if_pos hz]

theorem controlsStep_insert (acc : List (List Char × CatalogEntry))
    (r : RawControl) (hz : normalize_control_id r.controlIdentifier ≠ []) :
    controlsStep acc r
      = insertAssoc acc (normalize_control_id r.controlIdentifier)
          (entryOfControl r) := by
  rw [controlsStep, if_neg hz]

theorem load_controls_data_append (rs : List RawControl) (r : RawControl) :
    load_controls_data (rs ++ [r]) = controlsStep (load_controls_data rs) r := by
  rw [load_controls_data, List.foldl_append, load_controls_data]
  rfl

theorem cciStep_skip (acc : List (List Char × List CCIEntry)) (r : RawCCI)
    (hz : normalize_control_id r.control = []) : cciStep acc r = acc := by
  rw [cciStep, if_pos hz]

theorem cciStep_append (acc : List (List Char × List CCIEntry)) (r : RawCCI)
    (hz : normalize_control_id r.control ≠ []) :
    cciStep acc r
      = appendAssoc acc (normalize_control_id r.control) (cciOfRecord r) := by
  rw [cciStep, if_neg hz]

theorem load_cci_data_lookup_general (records : List RawCCI) :
    ∀ acc : List (List Char × List CCIEntry), ∀ k : List Char, k ≠ [] →
      lookupCCI (records.foldl cciStep acc) k
        = lookupCCI acc k
          ++ (records.filter
              (fun r => normalize_control_id r.control == k)).map cciOfRecord := by
  induction records with
  | nil => intro acc k hk; simp
  | cons r rest ih =>
    intro acc k hk
    rw [List.foldl_cons, List.filter_cons]
    by_cases hz : normalize_control_id r.control = []
    · rw [show (normalize_control_id r.control == k) = false by
        simp only [beq_eq_false_iff_ne, ne_eq]
        rw [hz]
        exact fun hh => hk hh.symm]
      rw [cciStep_skip _ _ hz, if_neg Bool.false_ne_true]
      exact ih acc k hk
    · rw [cciStep_append _ _ hz]
      by_cases hkk : normalize_control_id r.control = k
      · rw [show (normalize_control_id r.control == k) = true by simp [hkk]]
        simp only [if_pos rfl, List.map_cons]
        rw [ih _ k hk, hkk, lookupCCI_appendAssoc_self]
        simp
      · rw [show (normalize_control_id r.control == k) = false by simp [hkk],
          if_neg Bool.false_ne_true]
        rw [ih _ k hk, lookupCCI_appendAssoc_other _ _ _ _ hkk]

theorem load_cci_data_lookup (records : List RawCCI) (k : List Char)
    (hk : k ≠ []) :
    lookupCCI (load_cci_data records) k
      = (records.filter
          (fun r => normalize_control_id r.control == k)).map cciOfRecord := by
  have h := load_cci_data_lookup_general records [] k hk
  rw [load_cci_data, h]
  rfl

/-! Reconciliation facts. -/

theorem reconcile_level_go (withdrawn : List (List Char)) :
    ∀ (controls : List (List Char)) (cur leg : List (List Char)),
      controls.foldl (reconcileStep withdrawn) (cur, leg)
      = (cur ++ (controls.map normalize_control_id).filter
            (fun c => !withdrawn.contains c),
         leg ++ (controls.map normalize_control_id).filter
            (fun c => withdrawn.contains c)) := by
  intro controls
  induction controls with
  | nil => intro cur leg; simp
  | cons c rest ih =>
    intro cur leg
    rw [List.foldl_cons, List.map_cons, List.filter_cons, List.filter_cons]
    by_cases h : withdrawn.contains (normalize_control_id c) = true
    · rw [show reconcileStep withdrawn (cur, leg) c
          = (cur, leg ++ [normalize_control_id c]) by
        rw [reconcileStep, if_pos h]]
      rw [h]
      simp only [Bool.not_true]
      rw [if_neg Bool.false_ne_true, if_pos trivial, ih]
      simp
    · have hf : withdrawn.contains (normalize_control_id c) = false :=
        Bool.not_eq_true _ ▸ h
      rw [show reconcileStep withdrawn (cur, leg) c
          = (cur ++ [normalize_control_id c], leg) by
        rw [reconcileStep, if_neg h]]
      rw [hf]
      simp only [Bool.not_false]
      rw [if_pos trivial, if_neg Bool.false_ne_true, ih]
      simp

theorem reconcile_level_eq (controls withdrawn : List (List Char)) :
    reconcile_level controls withdrawn
      = ((controls.map normalize_control_id).filter
          (fun c => !withdrawn.contains c),
         (controls.map normalize_control_id).filter
          (fun c => withdrawn.contains c)) := by
  rw [reconcile_level, reconcile_level_go]
  simp

/-! Statistics aggregation facts. -/

theorem statsStep_skip (controls_lookup : List (List Char × CatalogEntry))
    (cci_lookup : List (List Char × List CCIEntry)) (st : LevelStats)
    (cid : List Char) (hz : normalize_control_id cid = []) :
    statsStep controls_lookup cci_lookup st cid = st := by
  rw [statsStep, if_pos hz]

theorem statsStep_not_in_reference
    (controls_lookup : List (List Char × CatalogEntry))
    (cci_lookup : List (List Char × List CCIEntry)) (st : LevelStats)
    (cid : List Char) (hz : normalize_control_id cid ≠ []) :
    (statsStep controls_lookup cci_lookup st cid).not_in_reference
      = (if (lookupAssoc controls_lookup (normalize_control_id cid)).isNone
          then st.not_in_reference ++ [normalize_control_id cid]
          else st.not_in_reference) := by
  rw [statsStep, if_neg hz]

theorem statsStep_total (controls_lookup : List (List Char × CatalogEntry))
    (cci_lookup : List (List Char × List CCIEntry)) (st : LevelStats)
    (cid : List Char) (hz : normalize_control_id cid ≠ []) :
    (statsStep controls_lookup cci_lookup st cid).total_controls
      = st.total_controls + 1 := by
  rw [statsStep, if_neg hz]

theorem create_level_sheet_stats_go
    (controls_lookup : List (List Char × CatalogEntry))
    (cci_lookup : List (List Char × List CCIEntry)) :
    ∀ (controls : List (List Char)) (st : LevelStats),
      (controls.foldl (statsStep controls_lookup cci_lookup) st).not_in_reference
        = st.not_in_reference
          ++ ((controls.map normalize_control_id).filter
              (fun n => !(n == []) && (lookupAssoc controls_lookup n).isNone))
      ∧ (controls.foldl (statsStep controls_lookup cci_lookup) st).total_controls
          = st.total_controls
            + ((controls.map normalize_control_id).filter
                (fun n => !(n == []))).length := by
  intro controls
  induction controls with
  | nil => intro st; simp
  | cons c rest ih =>
    intro st
    rw [List.foldl_cons, List.map_cons, List.filter_cons, List.filter_cons]
    by_cases hz : normalize_control_id c = []
    · rw [statsStep_skip _ _ _ _ hz, hz]
      rw [show (([] : List Char) == ([] : List Char)) = true by simp]
      simp only [Bool.not_true, Bool.false_and]
      rw [if_neg Bool.false_ne_true, if_neg Bool.false_ne_true]
      exact ih st
    · rw [show (normalize_control_id c == ([] : List Char)) = false by
        simp [hz]]
      simp only [Bool.not_false, Bool.true_and]
      constructor
      · rw [(ih _).1, statsStep_not_in_reference _ _ _ _ hz]
        by_cases hi : (lookupAssoc controls_lookup (normalize_control_id c)).isNone = true
        · rw [hi, if_pos rfl, if_pos rfl]
          simp
        · have hif : (lookupAssoc controls_lookup
              (normalize_control_id c)).isNone = false :=
            Bool.not_eq_true _ ▸ hi
          rw [hif, if_neg Bool.false_ne_true, if_neg Bool.false_ne_true]
      · rw [(ih _).2, statsStep_total _ _ _ _ hz]
        rw [if_pos trivial]
        simp only [List.length_cons]
        omega

/-! Claim theorems. -/

/-- Claim C1: normalize, on an input whose trimmed and upper-cased form
matches the pattern of two uppercase letters, a hyphen, one or more digits
and an optional parenthesized digit run, returns the family code, a hyphen,
the control number zero padded to 2 digits and, when present, the
enhancement number zero padded to 2 digits in parentheses; on any
non-matching input, including the empty string, it returns the trimmed,
upper-cased input unchanged and never raises. -/
theorem claim_C1_normalize_contract :
    normalize_control_id (strL "AC-1") = strL "AC-01" ∧
    normalize_control_id (strL "AC-2(1)") = strL "AC-02(01)" ∧
    normalize_control_id (strL "") = strL "" ∧
    (∀ s a b ds e,
      matchNormPattern (pyUpper (pyStrip s)) = some (a, b, ds, e) →
      normalize_control_id s
        = buildCanonical a b (digitsToNat ds) (e.map digitsToNat)) ∧
    (∀ s, matchNormPattern (pyUpper (pyStrip s)) = none →
      normalize_control_id s = pyUpper (pyStrip s)) :=
  ⟨by decide, by decide, rfl,
   fun _ _ _ _ _ h => normalize_eq_of_match h,
   fun _ h => normalize_eq_of_none h⟩

/-- Witness for claim C1 at concrete inputs: a matching input and a
non-matching input. -/
theorem claim_C1_witness :
    normalize_control_id (strL "AT-3") = strL "AT-03" ∧
    normalize_control_id (strL "XYZQ") = strL "XYZQ" := by
  constructor
  · have h := claim_C1_normalize_contract.2.2.2.1 (strL "AT-3") 'A' 'T'
      ['3'] none (by decide)
    rw [h]
    decide
  · have h := claim_C1_normalize_contract.2.2.2.2 (strL "XYZQ") (by decide)
    rw [h]
    decide

/-- Claim C2: normalize is idempotent on every string. -/
theorem claim_C2_normalize_idempotent (x : List Char) :
    normalize_control_id (normalize_control_id x) = normalize_control_id x :=
  normalize_idem x

/-- Claim C3: raw identifiers that differ only in zero padding of the
numeric parts, in letter case, or in surrounding whitespace normalize to the
same canonical value: strings with the same trimmed upper-cased form agree,
and matching strings with the same family letters and the same numeric
values agree. -/
theorem claim_C3_normalize_uniqueness :
    (∀ x y, pyUpper (pyStrip x) = pyUpper (pyStrip y) →
      normalize_control_id x = normalize_control_id y) ∧
    (∀ x y a b ds1 ds2 e1 e2,
      matchNormPattern (pyUpper (pyStrip x)) = some (a, b, ds1, e1) →
      matchNormPattern (pyUpper (pyStrip y)) = some (a, b, ds2, e2) →
      digitsToNat ds1 = digitsToNat ds2 →
      e1.map digitsToNat = e2.map digitsToNat →
      normalize_control_id x = normalize_control_id y) ∧
    normalize_control_id (strL " ac-001 ") = normalize_control_id (strL "AC-1") := by
  refine ⟨?_, ?_, by decide⟩
  · intro x y hxy
    cases hm : matchNormPattern (pyUpper (pyStrip x)) with
    | none =>
      rw [normalize_eq_of_none hm,
        normalize_eq_of_none (by rw [← hxy]; exact hm), hxy]
    | some q =>
      obtain ⟨a, b, ds, e⟩ := q
      rw [normalize_eq_of_match hm,
        normalize_eq_of_match (by rw [← hxy]; exact hm)]
  · intro x y a b ds1 ds2 e1 e2 h1 h2 hds he
    rw [normalize_eq_of_match h1, normalize_eq_of_match h2, hds, he]

/-- Witness for claim C3 at a concrete pair differing in padding, case and
whitespace. -/
theorem claim_C3_witness :
    normalize_control_id (strL "AC-01") = normalize_control_id (strL " ac-1 ") :=
  claim_C3_normalize_uniqueness.2.1 (strL "AC-01") (strL " ac-1 ") 'A' 'C'
    (strL "01") (strL "1") none none (by decide) (by decide) (by decide)
    (by decide)

/-- Counterexample to claim C4 as stated: the input AC-123 matches the
normalization pattern, yet the produced identifier AC-123 does not satisfy
the bit-exact canonical format of exactly two digits. -/
theorem claim_C4_counterexample :
    (matchNormPattern (pyUpper (pyStrip (strL "AC-123")))).isSome = true ∧
    canonicalFormatSpec (normalize_control_id (strL "AC-123")) = false := by
  decide

theorem canonicalFormatAtLeast2_buildCanonical {a b : Char} {n : Nat}
    {e : Option Nat} (ha : isUpperAlpha a = true) (hb : isUpperAlpha b = true) :
    canonicalFormatAtLeast2 (buildCanonical a b n e) = true := by
  cases e with
  | none =>
    rw [show buildCanonical a b n none = a :: b :: '-' :: format02 n from rfl,
      canonicalFormatAtLeast2]
    rw [takeWhile_eq_self_of_all (format02_digits n),
      dropWhile_eq_nil_of_all (format02_digits n)]
    simp [ha, hb, format02_length n]
  | some m =>
    rw [show buildCanonical a b n (some m)
        = a :: b :: '-' :: (format02 n ++ ('(' :: (format02 m ++ [')']))) from rfl,
      canonicalFormatAtLeast2]
    have hparen : isDigitChar '(' = false := by decide
    have hclose : isDigitChar ')' = false := by decide
    have ht : (format02 n ++ '(' :: (format02 m ++ [')'])).takeWhile isDigitChar
        = format02 n := by
      rw [List.takeWhile_append_of_pos (format02_digits n),
        List.takeWhile_cons_of_neg (by simp [hparen]), List.append_nil]
    have hdw : (format02 n ++ '(' :: (format02 m ++ [')'])).dropWhile isDigitChar
        = '(' :: (format02 m ++ [')']) := by
      rw [List.dropWhile_append_of_pos (format02_digits n),
        List.dropWhile_cons_of_neg (by simp [hparen])]
    have ht2 : (format02 m ++ [')']).takeWhile isDigitChar = format02 m := by
      rw [List.takeWhile_append_of_pos (format02_digits m),
        List.takeWhile_cons_of_neg (by simp [hclose]), List.append_nil]
    have hdw2 : (format02 m ++ [')']).dropWhile isDigitChar = [')'] := by
      rw [List.dropWhile_append_of_pos (format02_digits m),
        List.dropWhile_cons_of_neg (by simp [hclose])]
    rw [ht, hdw]
    simp [ha, hb, ht2, hdw2, format02_length n, format02_length m]

/-- Claim C4 amended: every identifier produced by a successful match inside
normalize satisfies the widened canonical format of two uppercase letters, a
hyphen, two or more digits, and an optional parenthesized run of two or more
digits; the original bit-exact two-digit format fails for control or
enhancement numbers of one hundred or more. -/
theorem claim_C4_amended {s : List Char} {a b : Char} {ds : List Char}
    {e : Option (List Char)}
    (h : matchNormPattern (pyUpper (pyStrip s)) = some (a, b, ds, e)) :
    canonicalFormatAtLeast2 (normalize_control_id s) = true := by
  obtain ⟨ha, hb, -, -, -⟩ := matchNormPattern_some_inv h
  rw [normalize_eq_of_match h]
  exact canonicalFormatAtLeast2_buildCanonical ha hb

/-- Witness for the amended claim C4 at a concrete matching input. -/
theorem claim_C4_witness :
    canonicalFormatAtLeast2 (normalize_control_id (strL "AC-1")) = true :=
  @claim_C4_amended (strL "AC-1") 'A' 'C' (strL "1") none (by decide)

/-- Counterexample to claim C5 as stated: the claim says a lowercase input
yields false, but validateFormat upper-cases before matching and accepts the
lowercase spelling. -/
theorem claim_C5_counterexample : validate_control_id (strL "ac-01") = true := by
  decide

/-- Claim C5 amended: validateFormat returns true exactly when the trimmed,
upper-cased input matches 2 to 3 uppercase letters, a hyphen, one or more
digits and an optional parenthesized digit group; empty and whitespace-only
inputs yield false, while lowercase variants of valid identifiers yield
true. -/
theorem claim_C5_amended :
    validate_control_id (strL "AC-01(01)") = true ∧
    validate_control_id (strL "XYZQ") = false ∧
    validate_control_id (strL "") = false ∧
    validate_control_id (strL "   ") = false ∧
    validate_control_id (strL "ac-01") = true ∧
    ∀ s, validate_control_id s = true ↔ validPatternSpec (pyUpper (pyStrip s)) :=
  ⟨by decide, by decide, by decide, by decide, by decide,
   validate_control_id_iff⟩

/-- Witness for the amended claim C5: the characterization applied at a
concrete accepted input. -/
theorem claim_C5_witness : validPatternSpec (pyUpper (pyStrip (strL "ac-01"))) :=
  (claim_C5_amended.2.2.2.2.2 (strL "ac-01")).mp (by decide)

/-- Claim C6: the controls lookup skips records with an empty normalized
identifier and keeps the fields of the last record on duplicate canonical
keys; the requirement lookup skips empty identifiers and appends records in
input order, never overwriting. -/
theorem claim_C6_lookup_builders :
    (∀ rs r, normalize_control_id r.controlIdentifier = [] →
      load_controls_data (rs ++ [r]) = load_controls_data rs) ∧
    (∀ rs r, normalize_control_id r.controlIdentifier ≠ [] →
      lookupAssoc (load_controls_data (rs ++ [r]))
          (normalize_control_id r.controlIdentifier)
        = some (entryOfControl r)) ∧
    (∀ rs r, normalize_control_id r.control = [] →
      load_cci_data (rs ++ [r]) = load_cci_data rs) ∧
    (∀ rs k, k ≠ [] →
      lookupCCI (load_cci_data rs) k
        = (rs.filter
            (fun r => normalize_control_id r.control == k)).map cciOfRecord) := by
  refine ⟨?_, ?_, ?_, load_cci_data_lookup⟩
  · intro rs r hz
    rw [load_controls_data_append, controlsStep_skip _ _ hz]
  · intro rs r hz
    rw [load_controls_data_append, controlsStep_insert _ _ hz,
      lookupAssoc_insertAssoc_self]
  · intro rs r hz
    rw [load_cci_data, List.foldl_append, List.foldl_cons, List.foldl_nil,
      cciStep_skip _ _ hz]
    rfl

/-- Witness for claim C6: duplicate canonical keys at concrete records, with
last-write-wins for the catalog and both entries retained in order for the
requirement mapping. -/
theorem claim_C6_witness :
    lookupAssoc
        (load_controls_data
          ([⟨strL "AC-1", strL "old name", strL "old text", [], []⟩]
            ++ [⟨strL "AC-01", strL "new name", strL "new text", [], []⟩]))
        (normalize_control_id (strL "AC-01"))
      = some (entryOfControl
          ⟨strL "AC-01", strL "new name", strL "new text", [], []⟩) ∧
    lookupCCI
        (load_cci_data
          [⟨strL "AC-1", strL "CCI-000001", [], []⟩,
           ⟨strL "AC-01", strL "CCI-000002", [], []⟩])
        (strL "AC-01")
      = [⟨strL "CCI-000001", [], []⟩, ⟨strL "CCI-000002", [], []⟩] := by
  constructor
  · exact claim_C6_lookup_builders.2.1
      [⟨strL "AC-1", strL "old name", strL "old text", [], []⟩]
      ⟨strL "AC-01", strL "new name", strL "new text", [], []⟩ (by decide)
  · rw [claim_C6_lookup_builders.2.2.2
      [⟨strL "AC-1", strL "CCI-000001", [], []⟩,
       ⟨strL "AC-01", strL "CCI-000002", [], []⟩]
      (strL "AC-01") (by decide)]
    decide

/-- Claim C7: the reconciliation is a pure order-preserving partition of the
normalized level sequence by membership in the withdrawn set: both outputs
are the corresponding filters of the normalized input, they are disjoint,
no identifier is dropped, together they are a permutation of the normalized
input, and an empty withdrawn set sends everything to current. -/
theorem claim_C7_reconcile_partition (controls withdrawn : List (List Char)) :
    (reconcile_level controls withdrawn).1
      = (controls.map normalize_control_id).filter
          (fun c => !withdrawn.contains c) ∧
    (reconcile_level controls withdrawn).2
      = (controls.map normalize_control_id).filter
          (fun c => withdrawn.contains c) ∧
    (∀ x, x ∈ (reconcile_level controls withdrawn).1 →
      x ∉ (reconcile_level controls withdrawn).2) ∧
    (reconcile_level controls withdrawn).1.length
        + (reconcile_level controls withdrawn).2.length = controls.length ∧
    ((reconcile_level controls withdrawn).1
        ++ (reconcile_level controls withdrawn).2).Perm
      (controls.map normalize_control_id) ∧
    (withdrawn = [] →
      (reconcile_level controls withdrawn).1 = controls.map normalize_control_id ∧
      (reconcile_level controls withdrawn).2 = []) := by
  rw [reconcile_level_eq]
  dsimp only
  have hperm := List.filter_append_perm
    (fun c => withdrawn.contains c) (controls.map normalize_control_id)
  refine ⟨rfl, rfl, ?_, ?_, ?_, ?_⟩
  · intro x hx1 hx2
    simp only [List.mem_filter] at hx1 hx2
    rw [hx2.2] at hx1
    exact absurd hx1.2 (by simp)
  · have hlen := hperm.length_eq
    rw [List.length_append, List.length_map] at hlen
    omega
  · exact (List.perm_append_comm).trans hperm
  · rintro rfl
    constructor
    · simp
    · simp

/-- Witness for claim C7 at the concrete example of the spec, together with
the empty-withdrawn case. -/
theorem claim_C7_witness :
    (reconcile_level [strL "AC-01", strL "AC-02"] [strL "AC-02"]).1
      = [strL "AC-01"] ∧
    (reconcile_level [strL "AC-01", strL "AC-02"] [strL "AC-02"]).2
      = [strL "AC-02"] ∧
    (reconcile_level [strL "AC-01"] []).1 = [strL "AC-01"] ∧
    (reconcile_level [strL "AC-01"] []).2 = [] := by
  refine ⟨?_, ?_, ?_, ?_⟩
  · rw [(claim_C7_reconcile_partition
      [strL "AC-01", strL "AC-02"] [strL "AC-02"]).1]
    decide
  · rw [(claim_C7_reconcile_partition
      [strL "AC-01", strL "AC-02"] [strL "AC-02"]).2.1]
    decide
  · rw [((claim_C7_reconcile_partition [strL "AC-01"] []).2.2.2.2.2 rfl).1]
    decide
  · exact ((claim_C7_reconcile_partition [strL "AC-01"] []).2.2.2.2.2 rfl).2

/-- Claim C8: identifiers whose catalog entry is absent are appended to the
missing-catalog list in encounter order while still being counted in the
control total, and the aggregator never aborts; the concrete example of a
level with SA-99 against a catalog with only AC-01 reports exactly that. -/
theorem claim_C8_missing_catalog :
    (∀ controls controls_lookup cci_lookup,
      (create_level_sheet_stats controls controls_lookup cci_lookup).not_in_reference
        = (controls.map normalize_control_id).filter
            (fun n => !(n == []) && (lookupAssoc controls_lookup n).isNone)) ∧
    (∀ controls controls_lookup cci_lookup,
      (create_level_sheet_stats controls controls_lookup cci_lookup).total_controls
        = ((controls.map normalize_control_id).filter
            (fun n => !(n == []))).length) ∧
    (create_level_sheet_stats [strL "SA-99"]
        [(strL "AC-01", ⟨[], [], [], []⟩)] []).not_in_reference
      = [strL "SA-99"] ∧
    (create_level_sheet_stats [strL "SA-99"]
        [(strL "AC-01", ⟨[], [], [], []⟩)] []).total_controls = 1 := by
  refine ⟨?_, ?_, by decide, by decide⟩
  · intro controls controls_lookup cci_lookup
    rw [create_level_sheet_stats,
      (create_level_sheet_stats_go controls_lookup cci_lookup controls initStats).1]
    rfl
  · intro controls controls_lookup cci_lookup
    rw [create_level_sheet_stats,
      (create_level_sheet_stats_go controls_lookup cci_lookup controls initStats).2]
    exact Nat.zero_add _

/-- Claim C9: the average requirements per control is the requirement total
divided by the control total rounded to 2 decimal places when the control
total is positive, and 0 when it is zero; 12 requirements over 5 controls
give 2.4. -/
theorem claim_C9_average :
    summary_avg_ccis 5 12 = 2.4 ∧
    (∀ tr, summary_avg_ccis 0 tr = 0) ∧
    (∀ tc tr, 0 < tc →
      summary_avg_ccis tc tr = pyRound2 ((tr : ℚ) / (tc : ℚ))) := by
  refine ⟨?_, ?_, ?_⟩
  · norm_num [summary_avg_ccis, pyRound2, roundHalfEven]
  · intro tr
    rw [summary_avg_ccis, if_neg (by omega)]
  · intro tc tr h
    rw [summary_avg_ccis, if_pos h]

/-- Witness for claim C9 at the concrete totals of the spec example. -/
theorem claim_C9_witness : summary_avg_ccis 5 12 = pyRound2 ((12 : ℚ) / 5) :=
  claim_C9_average.2.2 5 12 (by norm_num)

/-- Claim C10: the withdrawn set is taken from the raw comparison data
without normalization and membership is exact string equality against the
normalized level identifier, so a withdrawn identifier recorded in a
non-canonical spelling is never matched by any normalized identifier, and
the corresponding level control is classified as current. -/
theorem claim_C10_withdrawn_mismatch :
    (∀ raw, load_comparison_data_withdrawn raw = raw) ∧
    (∀ w, normalize_control_id w ≠ w →
      ∀ ctrl, normalize_control_id ctrl ≠ w) ∧
    reconcile_level [strL "AC-2"]
        (load_comparison_data_withdrawn [strL "AC-2"])
      = ([strL "AC-02"], []) := by
  refine ⟨fun _ => rfl, ?_, by decide⟩
  intro w hw ctrl hc
  apply hw
  rw [← hc, normalize_idem]

/-- Witness for claim C10: the non-canonical withdrawn spelling AC-2 is not
produced by normalize even on an input meant to denote the same control. -/
theorem claim_C10_witness :
    normalize_control_id (strL " ac-2 ") ≠ strL "AC-2" :=
  claim_C10_withdrawn_mismatch.2.1 (strL "AC-2") (by decide) (strL " ac-2 ")

end StigCCI
